import Mathlib

/-!
Shallow embedding of `src/provideCompletionItems.ts` (tabnine-vscode):
the completion suggestion synthesis and suppression engine.

Modelling conventions:
* Editor primitives (`vscode.TextDocument`, `vscode.Position`) are external
  collaborators; a document is represented by its observable operations
  (`fileName`, `offsetAt`, `positionAt`, `getText`), a position by its
  `line`/`character` pair with integer arithmetic (JS numbers on the ranges
  used here are exact integers).
* `new RegExp(r).test(s)` is abstracted by an oracle `regexTest r s`.
* The external `autocomplete` service is an oracle returning either a thrown
  error (`Except.error`), an absent response (`Option.none`, i.e. JS
  `null`/`undefined`), or a response envelope.
* JS truthiness is made explicit at each use site: a missing optional field
  and an empty string are falsy; any object is truthy.
* `String.fromCharCode(n)` reduces `n` modulo 2^16 and yields one UTF-16
  code unit; JS string comparison is lexicographic on code units.  Sort keys
  are therefore embedded as lists of code-unit values.
-/

namespace TabnineProvide

/-- An editor position (`vscode.Position`). -/
structure Pos where
  line : Int
  character : Int
deriving DecidableEq, Repr

/-- `position.translate(lineDelta, characterDelta)`. -/
def Pos.translate (p : Pos) (lineDelta characterDelta : Int) : Pos :=
  { line := p.line + lineDelta, character := p.character + characterDelta }

/-- `position.with({character: c})`. -/
def Pos.withCharacter (p : Pos) (c : Int) : Pos :=
  { line := p.line, character := c }

/-- `document.lineAt(p).range.start`: the start of the line holding `p`. -/
def lineStart (p : Pos) : Pos :=
  { line := p.line, character := 0 }

/-- A `vscode.TextDocument`, represented by its observable operations.
`getText a b` is the document text in the range from `a` to `b`. -/
structure TextDocument where
  fileName : String
  offsetAt : Pos → Int
  positionAt : Int → Pos
  getText : Pos → Pos → String

/-- A documentation value: `string | MarkdownStringSpec`.
Modelled from the spec: the `MarkdownStringSpec` type lives in
`binary/requests/requests.ts`, which is not part of the staged sources; the
spec describes documentation as plain text or a tagged rich-text variant
whose tag is a string compared against `"markdown"`. -/
inductive DocValue
  | str (s : String)
  | tagged (kind value : String)
deriving DecidableEq, Repr

/-- One raw candidate (`ResultEntry`).
Modelled from the spec: the field list is visible in the staged source's
uses; optionality follows the spec's data model (optional kind tag,
optional documentation, optional detail). The kind tag's carrier is opaque
here (`Nat`); its JS truthiness is modelled as presence. -/
structure ResultEntry where
  new_prefix : String
  old_suffix : String
  new_suffix : String
  kind : Option Nat
  documentation : Option DocValue
  detail : Option String
deriving DecidableEq, Repr

/-- The response envelope (`AutocompleteResult`). -/
structure AutocompleteResult where
  old_prefix : String
  results : List ResultEntry
  user_message : Option (List String)
deriving DecidableEq, Repr

/-- The request sent to the `autocomplete` service. -/
structure AutocompleteRequest where
  filename : String
  before : String
  after : String
  region_includes_beginning : Bool
  region_includes_end : Bool
  max_num_results : Nat
deriving DecidableEq, Repr

/-- The capability flags consulted by this module. -/
inductive Capability
  | ON_BOARDING_CAPABILITY
  | SUGGESTIONS_SINGLE
  | SUGGESTIONS_TWO
deriving DecidableEq, Repr

/-- Constants from `consts.ts`.  Modelled from the spec: `consts.ts` is not
part of the staged sources; the spec describes a fixed character budget
(`CHAR_LIMIT`), a fixed default detail string (`DEFAULT_DETAIL`) and a
configured default result maximum (`MAX_NUM_RESULTS`), without fixing their
values, so they are carried as parameters. -/
structure Consts where
  CHAR_LIMIT : Int
  DEFAULT_DETAIL : String
  MAX_NUM_RESULTS : Nat
deriving DecidableEq, Repr

/-- The ambient environment of the module: constants, capability store,
extension context, configuration surface, the regex engine and the
autocomplete service. -/
structure Env where
  consts : Consts
  isCapabilityEnabled : Capability → Bool
  isTabNineAutoImportEnabled : Bool
  disable_line_regex : Option (List String)
  disable_file_regex : Option (List String)
  regexTest : String → String → Bool
  autocomplete : AutocompleteRequest → Except String (Option AutocompleteResult)

/-- A `vscode.SnippetString` as the free record of the builder calls made on
it: construction from an initial value, `appendTabstop`, `appendText`. -/
inductive SnippetString
  | ofValue (value : String)
  | appendTabstop (s : SnippetString) (n : Nat)
  | appendText (s : SnippetString) (t : String)
deriving DecidableEq, Repr

/-- The value `formatDocumentation` returns: a `vscode.MarkdownString` built
from a value, or the JS value returned unchanged by the non-markdown paths. -/
inductive FormattedDocumentation
  | markdownString (value : String)
  | passthrough (d : DocValue)
deriving DecidableEq, Repr

/-- The payload attached as the item's follow-up command arguments
(`CompletionArguments`). -/
structure CompletionArguments where
  currentCompletion : String
  completions : List ResultEntry
  position : Pos
deriving DecidableEq, Repr

/-- A synthesized `vscode.CompletionItem`, restricted to the fields this
module assigns.  `sortText` is kept as UTF-16 code-unit values. -/
structure CompletionItem where
  label : String
  sortText : List Nat
  insertText : SnippetString
  filterText : String
  preselect : Bool
  kind : Option Nat
  range : Pos × Pos
  command : Option CompletionArguments
  documentation : Option FormattedDocumentation
  detail : String
deriving DecidableEq, Repr

/-- A `vscode.CompletionList`. -/
structure CompletionList where
  items : List CompletionItem
  isIncomplete : Bool
deriving DecidableEq, Repr

/-- JS truthiness of an optional documentation value: absent and the empty
string are falsy, a non-empty string and any object are truthy. -/
def truthyDoc : Option DocValue → Bool
  | none => false
  | some (.str s) => s ≠ ""
  | some (.tagged _ _) => true

/-- JS truthiness of an optional string: absent and `""` are falsy. -/
def truthyStr : Option String → Bool
  | none => false
  | some s => s ≠ ""

/-- JS `String.prototype.includes`: substring containment. -/
def jsIncludes (s sub : String) : Bool :=
  decide (sub.data <:+: s.data)

/-- JS `String.prototype.endsWith`: suffix test on the character sequence. -/
def jsEndsWith (s post : String) : Bool :=
  decide (post.data <:+ s.data)

/-- JS string `<`: lexicographic comparison of UTF-16 code-unit lists. -/
def jsStringLt : List Nat → List Nat → Bool
  | [], [] => false
  | [], _ :: _ => true
  | _ :: _, [] => false
  | a :: as, b :: bs =>
    if a < b then true else if b < a then false else jsStringLt as bs

/-- `getMaxResults` (source lines 156–166). -/
def getMaxResults (env : Env) : Nat :=
  if env.isCapabilityEnabled .SUGGESTIONS_SINGLE then 1
  else if env.isCapabilityEnabled .SUGGESTIONS_TWO then 2
  else env.consts.MAX_NUM_RESULTS

/-- `isMarkdownStringSpec` (source lines 186–188): `return x.kind` used as a
boolean.  A bare string has no `kind` property (falsy); a tagged object's
`kind` is a string, truthy iff non-empty. -/
def isMarkdownStringSpec : DocValue → Bool
  | .str _ => false
  | .tagged kind _ => kind ≠ ""

/-- `formatDocumentation` (source lines 168–180).  The branch order follows
the source: the `isMarkdownStringSpec` guard first, then `kind == "markdown"`;
the final `else` returns the argument unchanged. -/
def formatDocumentation (documentation : DocValue) : FormattedDocumentation :=
  if isMarkdownStringSpec documentation then
    match documentation with
    | .tagged kind value =>
      if kind = "markdown" then .markdownString value
      else .passthrough (.str value)
    | .str _ => .passthrough documentation
  else
    .passthrough documentation

/-- `escapeTabStopSign` (source lines 182–184): replace every `$` by `\$`. -/
def escapeTabStopSign (value : String) : String :=
  String.mk (value.data.flatMap fun c => if c = '$' then ['\\', '$'] else [c])

/-- The arguments record of `makeCompletionItem` (source lines 93–101). -/
structure MakeCompletionArgs where
  document : TextDocument
  index : Nat
  position : Pos
  detailMessage : String
  old_prefix : String
  entry : ResultEntry
  results : List ResultEntry

/-- `makeCompletionItem` (source lines 93–154). -/
def makeCompletionItem (env : Env) (args : MakeCompletionArgs) : CompletionItem :=
  let baseInsert := SnippetString.ofValue (escapeTabStopSign args.entry.new_prefix)
  { label :=
      (if env.isCapabilityEnabled .ON_BOARDING_CAPABILITY then "✨ " else "") ++
        args.entry.new_prefix
  , sortText := [0, args.index % 65536]
  , insertText :=
      if args.entry.new_suffix ≠ "" then
        (baseInsert.appendTabstop 0).appendText (escapeTabStopSign args.entry.new_suffix)
      else baseInsert
  , filterText := args.entry.new_prefix
  , preselect := args.index == 0
  , kind := args.entry.kind
  , range :=
      ( args.position.translate 0 (-(args.old_prefix.length : Int))
      , args.position.translate 0 (args.entry.old_suffix.length : Int) )
  , command :=
      if env.isTabNineAutoImportEnabled then
        some { currentCompletion := args.entry.new_prefix
             , completions := args.results
             , position := args.position }
      else none
  , documentation :=
      match args.entry.documentation with
      | some d => if truthyDoc (some d) then some (formatDocumentation d) else none
      | none => none
  , detail :=
      if truthyStr args.entry.detail &&
          (args.detailMessage == env.consts.DEFAULT_DETAIL ||
            jsIncludes args.detailMessage "Your project contains") then
        (args.entry.detail).getD ""
      else args.detailMessage }

/-- The line-regex loop of `completionIsAllowed` (source lines 201–214), with
the lazily materialized line slice modelled as a thunk and instrumentation:
the result is `(matched, slice computations, regex tests evaluated)`.  The
`cache` argument is the mutable `line` variable (`undefined` initially). -/
def lineScan (test : String → String → Bool) (slice : Unit → String) :
    List String → Option String → Bool × Nat × Nat
  | [], _ => (false, 0, 0)
  | r :: rest, cache =>
    let lineAndCost : String × Nat :=
      match cache with
      | none => (slice (), 1)
      | some l => (l, 0)
    if test r lineAndCost.1 then (true, lineAndCost.2, 1)
    else
      let res := lineScan test slice rest (some lineAndCost.1)
      (res.1, lineAndCost.2 + res.2.1, 1 + res.2.2)

/-- The file-regex loop of `completionIsAllowed` (source lines 221–225),
instrumented with the number of regex tests evaluated. -/
def fileScan (test : String → String → Bool) (name : String) :
    List String → Bool × Nat
  | [] => (false, 0)
  | r :: rest =>
    if test r name then (true, 1)
    else
      let res := fileScan test name rest
      (res.1, 1 + res.2)

/-- `completionIsAllowed` (source lines 190–227) with instrumentation:
`(allowed, line-slice computations, total regex tests evaluated)`.  Absent
configuration lists default to `[]`; the line slice is the current line from
column 0 to column 500. -/
def completionIsAllowedTrace (env : Env) (document : TextDocument)
    (position : Pos) : Bool × Nat × Nat :=
  let disable_line_regex := env.disable_line_regex.getD []
  let slice := fun _ : Unit =>
    document.getText (position.withCharacter 0) (position.withCharacter 500)
  let lr := lineScan env.regexTest slice disable_line_regex none
  if lr.1 then (false, lr.2.1, lr.2.2)
  else
    let disable_file_regex := env.disable_file_regex.getD []
    let fr := fileScan env.regexTest document.fileName disable_file_regex
    (!fr.1, lr.2.1, lr.2.2 + fr.2)

/-- The boolean result of `completionIsAllowed`. -/
def completionIsAllowed (env : Env) (document : TextDocument)
    (position : Pos) : Bool :=
  (completionIsAllowedTrace env document position).1

/-- `showFew` (source lines 229–244). -/
def showFew (response : AutocompleteResult) (document : TextDocument)
    (position : Pos) : Bool :=
  if response.results.any (fun e => e.kind.isSome || truthyDoc e.documentation) then
    false
  else
    let leftPoint := position.translate 0 (-(response.old_prefix.length : Int))
    let tail := document.getText (lineStart leftPoint) leftPoint
    jsEndsWith tail "." || jsEndsWith tail "::"

/-- The `detailMessage` accumulation loop (source lines 46–51): append each
advisory string, preceded by a newline only when the accumulator is
non-empty. -/
def joinUserMessages (msgs : List String) : String :=
  msgs.foldl (fun acc msg => (if acc ≠ "" then acc ++ "\n" else acc) ++ msg) ""

/-- The aggregated detail message (source lines 44–54): the accumulated
advisory text, or `DEFAULT_DETAIL` when it is empty. -/
def buildDetailMessage (DEFAULT_DETAIL : String)
    (user_message : Option (List String)) : String :=
  let detailMessage := joinUserMessages (user_message.getD [])
  if detailMessage = "" then DEFAULT_DETAIL else detailMessage

/-- The synthesis loop of `provideCompletionItems` (source lines 60–77):
push an item for each entry, incrementing `index`, and break once
`index ≥ limit` when a limit is set (the check runs after the increment). -/
def synthesizeLoop (env : Env) (document : TextDocument) (position : Pos)
    (detailMessage old_prefix : String) (results : List ResultEntry)
    (limit : Option Nat) : Nat → List ResultEntry → List CompletionItem
  | _, [] => []
  | index, entry :: rest =>
    makeCompletionItem env
        { document := document, index := index, position := position
        , detailMessage := detailMessage, old_prefix := old_prefix
        , entry := entry, results := results } ::
      (match limit with
       | some l =>
         if index + 1 ≥ l then []
         else synthesizeLoop env document position detailMessage old_prefix
           results limit (index + 1) rest
       | none =>
         synthesizeLoop env document position detailMessage old_prefix
           results limit (index + 1) rest)

/-- The item-list construction of `provideCompletionItems` (source lines
42–78): empty when the response has no results; otherwise the synthesis loop
over all results, limited to one item when `showFew` holds. -/
def buildItems (env : Env) (document : TextDocument) (position : Pos)
    (response : AutocompleteResult) : List CompletionItem :=
  if response.results.length != 0 then
    let detailMessage :=
      buildDetailMessage env.consts.DEFAULT_DETAIL response.user_message
    let limit : Option Nat :=
      if showFew response document position then some 1 else none
    synthesizeLoop env document position detailMessage response.old_prefix
      response.results limit 0 response.results
  else []

/-- The request construction of `provideCompletionItems` (source lines
24–36). -/
def buildRequest (env : Env) (document : TextDocument) (position : Pos) :
    AutocompleteRequest :=
  let offset := document.offsetAt position
  let before_start_offset := max 0 (offset - env.consts.CHAR_LIMIT)
  let after_end_offset := offset + env.consts.CHAR_LIMIT
  let before_start := document.positionAt before_start_offset
  let after_end := document.positionAt after_end_offset
  { filename := document.fileName
  , before := document.getText before_start position
  , after := document.getText position after_end
  , region_includes_beginning := before_start_offset == 0
  , region_includes_end := document.offsetAt after_end != after_end_offset
  , max_num_results := getMaxResults env }

/-- The body of the `try` block of `provideCompletionItems` (source lines
19–80): the only modelled fallible step is the awaited service call, whose
thrown errors surface as `Except.error`. -/
def provideCompletionItemsInner (env : Env) (document : TextDocument)
    (position : Pos) : Except String (Option CompletionList) :=
  if !completionIsAllowed env document position then .ok none
  else
    match env.autocomplete (buildRequest env document position) with
    | .error e => .error e
    | .ok none => .ok none
    | .ok (some response) =>
      .ok (some { items := buildItems env document position response
                , isIncomplete := true })

/-- `provideCompletionItems` (source lines 13–85): the `try`/`catch`
boundary.  A thrown error is logged and the function returns `undefined`
(`none`). -/
def provideCompletionItems (env : Env) (document : TextDocument)
    (position : Pos) : Option CompletionList :=
  match provideCompletionItemsInner env document position with
  | .ok r => r
  | .error _ => none

end TabnineProvide

namespace TabnineProvide

/-! Concrete test fixtures used by the closed witness statements. -/

/-- A concrete document: the text before the cursor on its line is `"obj."`. -/
def wDoc : TextDocument :=
  { fileName := "file.ts"
  , offsetAt := fun p => p.character
  , positionAt := fun n => { line := 0, character := n }
  , getText := fun a b =>
      if a.character ≤ 0 ∧ b.character ≥ 5 then "obj." else "x." }

/-- A concrete cursor position. -/
def wPos : Pos := { line := 0, character := 7 }

/-- A concrete candidate entry. -/
def wEntry : ResultEntry :=
  { new_prefix := "foo$bar", old_suffix := ")", new_suffix := "end"
  , kind := none, documentation := none, detail := some "det" }

/-- A concrete response envelope with three undecorated candidates. -/
def wResp : AutocompleteResult :=
  { old_prefix := "fo"
  , results := [wEntry, { wEntry with new_prefix := "g" },
      { wEntry with new_prefix := "h" }]
  , user_message := some ["a", "b"] }

/-- A concrete environment whose service call returns `wResp`. -/
def wEnv : Env :=
  { consts := { CHAR_LIMIT := 100, DEFAULT_DETAIL := "TabNine", MAX_NUM_RESULTS := 5 }
  , isCapabilityEnabled := fun _ => false
  , isTabNineAutoImportEnabled := false
  , disable_line_regex := none
  , disable_file_regex := none
  , regexTest := fun _ _ => false
  , autocomplete := fun _ => .ok (some wResp) }

/-- `wEnv` with three line regexes of which exactly the second matches. -/
def wEnvLine : Env :=
  { wEnv with
      disable_line_regex := some ["a", "b", "c"],
      regexTest := fun r _ => r == "b" }

/-- `wEnv` with only the single-result capability enabled. -/
def wEnvSingle : Env :=
  { wEnv with isCapabilityEnabled := fun c => c == .SUGGESTIONS_SINGLE }

/-- The synthesis arguments of the first item built from `wResp`. -/
def wArgs0 : MakeCompletionArgs :=
  { document := wDoc, index := 0, position := wPos, detailMessage := "a\nb"
  , old_prefix := "fo", entry := wEntry, results := wResp.results }

/-- The synthesis arguments of a second item from the same response. -/
def wArgs1 : MakeCompletionArgs :=
  { wArgs0 with index := 1, entry := { wEntry with new_prefix := "g" } }

/-- `wArgs0` with the aggregated message equal to the default detail. -/
def wArgsDet : MakeCompletionArgs :=
  { wArgs0 with detailMessage := "TabNine" }

end TabnineProvide

namespace TabnineProvide

/-! Helper lemmas. -/

/-- Replacing `$` in a character list without `$` changes nothing. -/
theorem flatMap_escape_id (l : List Char) (h : '$' ∉ l) :
    (l.flatMap fun c => if c = '$' then ['\\', '$'] else [c]) = l := by
  induction l with
  | nil => rfl
  | cons c cs ih =>
    have hc : c ≠ '$' := fun e => h (e ▸ List.mem_cons_self c cs)
    simp only [List.flatMap_cons, if_neg hc]
    rw [ih fun hm => h (List.mem_cons_of_mem _ hm)]
    rfl

/-- A string whose right part is non-empty is non-empty. -/
theorem append_ne_empty_left (s t : String) (h : s ≠ "") : s ++ t ≠ "" := by
  intro hc
  have h1 : (s ++ t).length = 0 := by rw [hc]; rfl
  rw [String.length_append] at h1
  have h3 : s.data.length = 0 := by
    have : s.length = 0 := by omega
    exact this
  apply h
  cases s with
  | mk data => simp at h3; simp [h3]

/-- The accumulator distributes over `String.intercalate.go`. -/
theorem intercalate_go_append (s : String) (l : List String) : ∀ a x : String,
    String.intercalate.go (a ++ x) s l = a ++ String.intercalate.go x s l := by
  induction l with
  | nil => intro a x; simp [String.intercalate.go]
  | cons y ys ih =>
    intro a x
    show String.intercalate.go (a ++ x ++ s ++ y) s ys = _
    rw [String.append_assoc, String.append_assoc, ih a (x ++ (s ++ y))]
    simp [String.intercalate.go, String.append_assoc]

/-- `String.intercalate` unfolds one separator at a time. -/
theorem intercalate_cons_cons (s a b : String) (l : List String) :
    String.intercalate s (a :: b :: l) =
      a ++ s ++ String.intercalate s (b :: l) := by
  show String.intercalate.go a s (b :: l) = _
  show String.intercalate.go (a ++ s ++ b) s l = _
  rw [String.append_assoc, intercalate_go_append s l a (s ++ b)]
  show _ = a ++ s ++ String.intercalate.go b s l
  rw [intercalate_go_append s l s b, String.append_assoc]

/-- Once the accumulator is non-empty, the message loop is a newline join. -/
theorem join_from_nonempty (rest : List String) : ∀ acc : String, acc ≠ "" →
    rest.foldl (fun acc msg => (if acc ≠ "" then acc ++ "\n" else acc) ++ msg) acc =
      String.intercalate "\n" (acc :: rest) := by
  induction rest with
  | nil => intro acc h; rfl
  | cons m ms ih =>
    intro acc h
    have step : (if acc ≠ "" then acc ++ "\n" else acc) ++ m = acc ++ "\n" ++ m := by
      rw [if_pos h]
    rw [List.foldl_cons, step, ih (acc ++ "\n" ++ m)
      (by rw [String.append_assoc]; exact append_ne_empty_left _ _ h)]
    show String.intercalate "\n" ((acc ++ "\n" ++ m) :: ms) = _
    cases ms with
    | nil => rfl
    | cons y ys =>
      rw [intercalate_cons_cons, intercalate_cons_cons, intercalate_cons_cons]
      simp [String.append_assoc]

/-- The message loop equals a newline join of the strings after the leading
empty ones. -/
theorem joinUserMessages_eq (msgs : List String) :
    joinUserMessages msgs =
      (match msgs.dropWhile (fun m => m == "") with
       | [] => ""
       | m :: rest => String.intercalate "\n" (m :: rest)) := by
  induction msgs with
  | nil => rfl
  | cons m ms ih =>
    by_cases h : m = ""
    · subst h
      have h0 : joinUserMessages ("" :: ms) = joinUserMessages ms := rfl
      rw [h0, ih]
      simp [List.dropWhile_cons]
    · have h2 : joinUserMessages (m :: ms) =
          ms.foldl (fun acc msg => (if acc ≠ "" then acc ++ "\n" else acc) ++ msg) m := by
        have hstep : ((if ("" : String) ≠ "" then "" ++ "\n" else "") ++ m) = m := by simp
        unfold joinUserMessages
        rw [List.foldl_cons, hstep]
      rw [h2, join_from_nonempty ms m h]
      simp [List.dropWhile_cons, h]

/-- The aggregated detail message, characterized: the newline join of the
advisory strings after the leading empty ones, or the default when none
remain. -/
theorem buildDetailMessage_eq (dd : String) (um : Option (List String)) :
    buildDetailMessage dd um =
      (match (um.getD []).dropWhile (fun m => m == "") with
       | [] => dd
       | m :: rest => String.intercalate "\n" (m :: rest)) := by
  unfold buildDetailMessage
  rw [joinUserMessages_eq]
  cases hv : (um.getD []).dropWhile (fun m => m == "") with
  | nil => simp
  | cons m rest =>
    have hm : m ≠ "" := by
      have := List.head_dropWhile_not (p := fun m => m == "") (l := um.getD [])
      rw [hv] at this
      simpa using this (by simp)
    have hne : String.intercalate "\n" (m :: rest) ≠ "" := by
      cases rest with
      | nil => exact hm
      | cons y ys =>
        rw [intercalate_cons_cons]
        exact append_ne_empty_left _ _ (append_ne_empty_left _ _ hm)
    simp [hne]

end TabnineProvide

namespace TabnineProvide

/-- The matched flag of the line loop with a warm cache. -/
theorem lineScan_matched_some (t : String → String → Bool) (s : Unit → String) :
    ∀ (rs : List String) (l : String),
      (lineScan t s rs (some l)).1 = rs.any (fun r => t r l) := by
  intro rs
  induction rs with
  | nil => intro l; rfl
  | cons r rest ih =>
    intro l
    simp only [lineScan]
    cases h : t r l with
    | true => simp [h]
    | false => simp [h, ih l]

/-- The matched flag of the line loop from a cold cache. -/
theorem lineScan_matched_none (t : String → String → Bool) (s : Unit → String)
    (rs : List String) :
    (lineScan t s rs none).1 = rs.any (fun r => t r (s ())) := by
  cases rs with
  | nil => rfl
  | cons r rest =>
    simp only [lineScan]
    cases h : t r (s ()) with
    | true => simp [h]
    | false => simp [h, lineScan_matched_some t s rest (s ())]

/-- A warm cache is never recomputed. -/
theorem lineScan_slice_some (t : String → String → Bool) (s : Unit → String) :
    ∀ (rs : List String) (l : String), (lineScan t s rs (some l)).2.1 = 0 := by
  intro rs
  induction rs with
  | nil => intro l; rfl
  | cons r rest ih =>
    intro l
    simp only [lineScan]
    cases h : t r l with
    | true => simp [h]
    | false => simp [h, ih l]

/-- From a cold cache the slice is computed at most once. -/
theorem lineScan_slice_none (t : String → String → Bool) (s : Unit → String)
    (rs : List String) : (lineScan t s rs none).2.1 ≤ 1 := by
  cases rs with
  | nil => simp [lineScan]
  | cons r rest =>
    simp only [lineScan]
    cases h : t r (s ()) with
    | true => simp [h]
    | false => simp [h, lineScan_slice_some t s rest (s ())]

/-- With a warm cache the loop stops right after the first matching regex. -/
theorem lineScan_tests_some (t : String → String → Bool) (s : Unit → String) :
    ∀ (as : List String) (r : String) (bs : List String) (l : String),
      (∀ a ∈ as, t a l = false) → t r l = true →
      (lineScan t s (as ++ r :: bs) (some l)).2.2 = as.length + 1 := by
  intro as
  induction as with
  | nil =>
    intro r bs l _ hr
    simp [lineScan, hr]
  | cons a as ih =>
    intro r bs l hall hr
    have ha : t a l = false := hall a (List.mem_cons_self a as)
    simp only [List.cons_append, lineScan, ha]
    simp [ih r bs l (fun x hx => hall x (List.mem_cons_of_mem a hx)) hr]
    omega

/-- From a cold cache the loop stops right after the first matching regex. -/
theorem lineScan_tests_none (t : String → String → Bool) (s : Unit → String)
    (as : List String) (r : String) (bs : List String)
    (hall : ∀ a ∈ as, t a (s ()) = false) (hr : t r (s ()) = true) :
    (lineScan t s (as ++ r :: bs) none).2.2 = as.length + 1 := by
  cases as with
  | nil => simp [lineScan, hr]
  | cons a as =>
    have ha : t a (s ()) = false := hall a (List.mem_cons_self a as)
    simp only [List.cons_append, lineScan, ha]
    simp [lineScan_tests_some t s as r bs (s ())
      (fun x hx => hall x (List.mem_cons_of_mem a hx)) hr]
    omega

/-- The matched flag of the file-regex loop. -/
theorem fileScan_matched (t : String → String → Bool) (n : String) :
    ∀ rs : List String, (fileScan t n rs).1 = rs.any (fun r => t r n) := by
  intro rs
  induction rs with
  | nil => rfl
  | cons r rest ih =>
    simp only [fileScan]
    cases h : t r n with
    | true => simp [h]
    | false => simp [h, ih]

end TabnineProvide

namespace TabnineProvide

/-- C2: the suppression check returns false iff some configured line regex
matches the line slice from column 0 up to the fixed column bound (500) or
some configured file regex matches the file path; absent lists count as
empty, and with both lists empty the check returns true.  The line slice is
computed at most once, never when the line list is empty, and evaluation
stops right after the first matching line regex (no later regex, line or
file, is evaluated). -/
theorem completionIsAllowed_spec (env : Env) (d : TextDocument) (p : Pos) :
    (completionIsAllowed env d p = false ↔
      ((∃ r ∈ env.disable_line_regex.getD [],
          env.regexTest r (d.getText (p.withCharacter 0) (p.withCharacter 500)) = true) ∨
        (∃ r ∈ env.disable_file_regex.getD [],
          env.regexTest r d.fileName = true))) ∧
    (env.disable_line_regex.getD [] = [] → env.disable_file_regex.getD [] = [] →
      completionIsAllowed env d p = true) ∧
    ((completionIsAllowedTrace env d p).2.1 ≤ 1) ∧
    (env.disable_line_regex.getD [] = [] →
      (completionIsAllowedTrace env d p).2.1 = 0) ∧
    (∀ as r bs, env.disable_line_regex.getD [] = as ++ r :: bs →
      (∀ a ∈ as,
        env.regexTest a (d.getText (p.withCharacter 0) (p.withCharacter 500)) = false) →
      env.regexTest r (d.getText (p.withCharacter 0) (p.withCharacter 500)) = true →
      (completionIsAllowedTrace env d p).2.2 = as.length + 1) := by
  refine ⟨?_, ?_, ?_, ?_, ?_⟩
  · unfold completionIsAllowed completionIsAllowedTrace
    cases h : (lineScan env.regexTest
        (fun _ : Unit => d.getText (p.withCharacter 0) (p.withCharacter 500))
        (env.disable_line_regex.getD []) none).1
    · simp only [h, if_false, Bool.false_eq_true]
      rw [lineScan_matched_none] at h
      simp only [Bool.not_eq_false', fileScan_matched]
      constructor
      · intro hf
        exact Or.inr (List.any_eq_true.mp hf)
      · intro hor
        cases hor with
        | inl hl =>
          rw [List.any_eq_true.mpr hl] at h
          exact absurd h (by simp)
        | inr hf => exact List.any_eq_true.mpr hf
    · simp only [h, if_true]
      rw [lineScan_matched_none] at h
      simp only [true_iff]
      exact Or.inl (List.any_eq_true.mp h)
  · intro hL hF
    unfold completionIsAllowed completionIsAllowedTrace
    rw [hL, hF]
    rfl
  · unfold completionIsAllowedTrace
    cases h : (lineScan env.regexTest
        (fun _ : Unit => d.getText (p.withCharacter 0) (p.withCharacter 500))
        (env.disable_line_regex.getD []) none).1
    · simp only [h, if_false]
      exact lineScan_slice_none _ _ _
    · simp only [h, if_true]
      exact lineScan_slice_none _ _ _
  · intro hL
    unfold completionIsAllowedTrace
    rw [hL]
    rfl
  · intro as r bs hL hall hr
    unfold completionIsAllowedTrace
    rw [hL]
    have hmatched : (lineScan env.regexTest
        (fun _ : Unit => d.getText (p.withCharacter 0) (p.withCharacter 500))
        (as ++ r :: bs) none).1 = true := by
      rw [lineScan_matched_none]
      exact List.any_eq_true.mpr ⟨r, by simp, hr⟩
    simp only [hmatched, if_true]
    exact lineScan_tests_none _ _ as r bs hall hr

/-- C2 witness: with line regexes `["a", "b", "c"]` of which exactly `"b"`
matches, exactly two regex tests run. -/
theorem completionIsAllowed_spec_witness :
    (completionIsAllowedTrace wEnvLine wDoc wPos).2.2 = 2 :=
  (completionIsAllowed_spec wEnvLine wDoc wPos).2.2.2.2 ["a"] "b" ["c"] rfl
    (by decide) (by decide)

end TabnineProvide

namespace TabnineProvide

/-- A candidate contributes nothing to the `showFew` veto iff it has no kind
and its documentation is absent or the empty string. -/
theorem entry_plain_iff (e : ResultEntry) :
    ¬(e.kind.isSome = true ∨ truthyDoc e.documentation = true) ↔
      (e.kind = none ∧
        (e.documentation = none ∨ e.documentation = some (.str ""))) := by
  cases hk : e.kind with
  | some k => simp [hk]
  | none =>
    rcases hd : e.documentation with _ | s | ⟨kk, vv⟩
    · simp [hd, truthyDoc]
    · by_cases hs : s = "" <;> simp [hd, truthyDoc, hs]
    · simp [hd, truthyDoc]

/-- `showFew` as one boolean expression. -/
theorem showFew_eq (response : AutocompleteResult) (d : TextDocument) (p : Pos) :
    showFew response d p =
      (!response.results.any (fun e => e.kind.isSome || truthyDoc e.documentation) &&
        (jsEndsWith (d.getText
            (lineStart (p.translate 0 (-(response.old_prefix.length : Int))))
            (p.translate 0 (-(response.old_prefix.length : Int)))) "." ||
          jsEndsWith (d.getText
            (lineStart (p.translate 0 (-(response.old_prefix.length : Int))))
            (p.translate 0 (-(response.old_prefix.length : Int)))) "::")) := by
  unfold showFew
  cases h : response.results.any (fun e => e.kind.isSome || truthyDoc e.documentation) with
  | true => simp [h]
  | false => simp [h]

/-- The `showFew` condition, characterized. -/
theorem showFew_iff_test (d : TextDocument) (p : Pos)
    (response : AutocompleteResult) :
    showFew response d p = true ↔
      ((∀ e ∈ response.results, e.kind = none ∧
          (e.documentation = none ∨ e.documentation = some (.str ""))) ∧
        (jsEndsWith (d.getText
            (lineStart (p.translate 0 (-(response.old_prefix.length : Int))))
            (p.translate 0 (-(response.old_prefix.length : Int)))) "." = true ∨
          jsEndsWith (d.getText
            (lineStart (p.translate 0 (-(response.old_prefix.length : Int))))
            (p.translate 0 (-(response.old_prefix.length : Int)))) "::" = true)) := by
  rw [showFew_eq]
  simp only [Bool.and_eq_true, Bool.not_eq_eq_eq_not, Bool.not_true, List.any_eq_false,
    Bool.or_eq_true]
  exact and_congr_left' (forall₂_congr fun e he => entry_plain_iff e)

/-- When `showFew` holds, a non-empty response synthesizes exactly one item. -/
theorem buildItems_length_one (env : Env) (d : TextDocument) (p : Pos)
    (response : AutocompleteResult) (hs : showFew response d p = true)
    (hne : response.results ≠ []) : (buildItems env d p response).length = 1 := by
  unfold buildItems
  cases hr : response.results with
  | nil => exact absurd hr hne
  | cons e rest =>
    simp only [hr, hs, if_true]
    simp [synthesizeLoop]

/-- C3: `showFew` returns true exactly when every candidate lacks both a
kind tag and documentation (absent, or the falsy empty string) and the text
on the current line from line start to the replacement start (the cursor
shifted left by the length of `old_prefix`) ends with `"."` or `"::"`; when
it returns true, a non-empty response synthesizes exactly one item. -/
theorem showFew_spec (env : Env) (d : TextDocument) (p : Pos)
    (response : AutocompleteResult) :
    (showFew response d p = true ↔
      ((∀ e ∈ response.results, e.kind = none ∧
          (e.documentation = none ∨ e.documentation = some (.str ""))) ∧
        (jsEndsWith (d.getText
            (lineStart (p.translate 0 (-(response.old_prefix.length : Int))))
            (p.translate 0 (-(response.old_prefix.length : Int)))) "." = true ∨
          jsEndsWith (d.getText
            (lineStart (p.translate 0 (-(response.old_prefix.length : Int))))
            (p.translate 0 (-(response.old_prefix.length : Int)))) "::" = true))) ∧
    (showFew response d p = true → response.results ≠ [] →
      (buildItems env d p response).length = 1) :=
  ⟨showFew_iff_test d p response,
    fun hs hne => buildItems_length_one env d p response hs hne⟩

/-- C3 witness: the three undecorated candidates of `wResp` after `"obj."`
collapse to a single synthesized item. -/
theorem showFew_spec_witness : (buildItems wEnv wDoc wPos wResp).length = 1 :=
  (showFew_spec wEnv wDoc wPos wResp).2 (by decide) (by decide)

end TabnineProvide

namespace TabnineProvide

/-- Every synthesized item arises from `makeCompletionItem` at some index and
entry of the response. -/
theorem synthesizeLoop_mem (env : Env) (d : TextDocument) (p : Pos)
    (dm op : String) (results : List ResultEntry) (limit : Option Nat) :
    ∀ (entries : List ResultEntry) (idx : Nat) (x : CompletionItem),
      x ∈ synthesizeLoop env d p dm op results limit idx entries →
      ∃ i e, e ∈ entries ∧ x = makeCompletionItem env
        { document := d, index := i, position := p, detailMessage := dm
        , old_prefix := op, entry := e, results := results } := by
  intro entries
  induction entries with
  | nil => intro idx x hx; simp [synthesizeLoop] at hx
  | cons e rest ih =>
    intro idx x hx
    simp only [synthesizeLoop] at hx
    rcases List.mem_cons.mp hx with h1 | h2
    · exact ⟨idx, e, List.mem_cons_self e rest, h1⟩
    · cases limit with
      | none =>
        obtain ⟨i, e2, he2, hxe⟩ := ih (idx + 1) x h2
        exact ⟨i, e2, List.mem_cons_of_mem e he2, hxe⟩
      | some l =>
        dsimp only at h2
        by_cases hl : idx + 1 ≥ l
        · rw [if_pos hl] at h2
          simp at h2
        · rw [if_neg hl] at h2
          obtain ⟨i, e2, he2, hxe⟩ := ih (idx + 1) x h2
          exact ⟨i, e2, List.mem_cons_of_mem e he2, hxe⟩

/-- Every item of `buildItems` comes from an entry of the response. -/
theorem buildItems_mem (env : Env) (d : TextDocument) (p : Pos)
    (response : AutocompleteResult) (x : CompletionItem)
    (hx : x ∈ buildItems env d p response) :
    ∃ i e, e ∈ response.results ∧ x = makeCompletionItem env
      { document := d, index := i, position := p
      , detailMessage := buildDetailMessage env.consts.DEFAULT_DETAIL response.user_message
      , old_prefix := response.old_prefix, entry := e
      , results := response.results } := by
  unfold buildItems at hx
  by_cases h : response.results.length != 0
  · rw [if_pos h] at hx
    exact synthesizeLoop_mem env d p _ _ _ _ _ 0 x hx
  · rw [if_neg h] at hx
    simp at hx

/-- The `j`-th element of the synthesis loop is `makeCompletionItem` applied
to the `j`-th remaining entry at index `idx + j`. -/
theorem synthesizeLoop_getElem (env : Env) (d : TextDocument) (p : Pos)
    (dm op : String) (results : List ResultEntry) (limit : Option Nat) :
    ∀ (entries : List ResultEntry) (idx j : Nat),
      j < (synthesizeLoop env d p dm op results limit idx entries).length →
      ∃ hj : j < entries.length,
        (synthesizeLoop env d p dm op results limit idx entries)[j]? =
          some (makeCompletionItem env
            { document := d, index := idx + j, position := p, detailMessage := dm
            , old_prefix := op, entry := entries.get ⟨j, hj⟩, results := results }) := by
  intro entries
  induction entries with
  | nil => intro idx j h; simp [synthesizeLoop] at h
  | cons e rest ih =>
    intro idx j h
    cases j with
    | zero =>
      refine ⟨by simp, ?_⟩
      simp [synthesizeLoop]
    | succ j =>
      simp only [synthesizeLoop] at h ⊢
      cases limit with
      | none =>
        rw [List.length_cons] at h
        have hlt : j < (synthesizeLoop env d p dm op results none (idx + 1) rest).length :=
          Nat.lt_of_succ_lt_succ h
        obtain ⟨hj, hh⟩ := ih (idx + 1) j hlt
        refine ⟨Nat.succ_lt_succ hj, ?_⟩
        rw [List.getElem?_cons_succ, hh]
        have harith : idx + 1 + j = idx + (j + 1) := by omega
        rw [harith, List.get_cons_succ]
      | some l =>
        dsimp only at h ⊢
        by_cases hl : idx + 1 ≥ l
        · rw [if_pos hl] at h
          rw [List.length_cons] at h
          simp at h
        · rw [if_neg hl] at h ⊢
          rw [List.length_cons] at h
          have hlt : j < (synthesizeLoop env d p dm op results (some l) (idx + 1) rest).length :=
            Nat.lt_of_succ_lt_succ h
          obtain ⟨hj, hh⟩ := ih (idx + 1) j hlt
          refine ⟨Nat.succ_lt_succ hj, ?_⟩
          rw [List.getElem?_cons_succ, hh]
          have harith : idx + 1 + j = idx + (j + 1) := by omega
          rw [harith, List.get_cons_succ]

/-- The `i`-th synthesized item is `makeCompletionItem` applied to the
`i`-th candidate of the response, at index `i`. -/
theorem buildItems_getElem (env : Env) (d : TextDocument) (p : Pos)
    (response : AutocompleteResult) (i : Nat)
    (hi : i < (buildItems env d p response).length) :
    ∃ hj : i < response.results.length,
      (buildItems env d p response)[i]? =
        some (makeCompletionItem env
          { document := d, index := i, position := p
          , detailMessage :=
              buildDetailMessage env.consts.DEFAULT_DETAIL response.user_message
          , old_prefix := response.old_prefix
          , entry := response.results.get ⟨i, hj⟩
          , results := response.results }) := by
  have hi2 := hi
  unfold buildItems at hi2 ⊢
  by_cases h : response.results.length != 0
  · rw [if_pos h] at hi2 ⊢
    obtain ⟨hj, hh⟩ := synthesizeLoop_getElem env d p
      (buildDetailMessage env.consts.DEFAULT_DETAIL response.user_message)
      response.old_prefix response.results
      (if showFew response d p then some 1 else none) response.results 0 i hi2
    refine ⟨hj, ?_⟩
    show (synthesizeLoop env d p
        (buildDetailMessage env.consts.DEFAULT_DETAIL response.user_message)
        response.old_prefix response.results
        (if showFew response d p then some 1 else none) 0 response.results)[i]? = _
    rw [hh]
    simp
  · rw [if_neg h] at hi2
    simp at hi2

/-- C9: every synthesized item's replacement range starts at the position
shifted left by the length of the envelope's `old_prefix` and ends at the
position shifted right by that item's own entry's `old_suffix` length: at
the argument level the range is exactly this pair, and in the synthesized
list the `i`-th item's range ends with the `i`-th candidate's `old_suffix`
length (the left bound identical across all items of one response).  The
request window's "reaches start" flag is true iff
`max 0 (cursorOffset - CHAR_LIMIT) = 0`, and the window's `before` text
starts at the position of that clamped offset. -/
theorem range_window_spec (env : Env) (d : TextDocument) (p : Pos)
    (response : AutocompleteResult) :
    (∀ args : MakeCompletionArgs,
      (makeCompletionItem env args).range =
        ( args.position.translate 0 (-(args.old_prefix.length : Int))
        , args.position.translate 0 (args.entry.old_suffix.length : Int) )) ∧
    (∀ (i : Nat) (item : CompletionItem),
      (buildItems env d p response)[i]? = some item →
      ∃ hj : i < response.results.length,
        item.range.1 = p.translate 0 (-(response.old_prefix.length : Int)) ∧
        item.range.2 =
          p.translate 0 (((response.results.get ⟨i, hj⟩).old_suffix.length : Int))) ∧
    ((buildRequest env d p).region_includes_beginning = true ↔
      max 0 (d.offsetAt p - env.consts.CHAR_LIMIT) = 0) ∧
    ((buildRequest env d p).before =
      d.getText (d.positionAt (max 0 (d.offsetAt p - env.consts.CHAR_LIMIT))) p) := by
  refine ⟨?_, ?_, ?_, ?_⟩
  · intro args
    rfl
  · intro i item hsome
    have hlen : i < (buildItems env d p response).length := by
      by_contra hge
      rw [List.getElem?_eq_none (by omega)] at hsome
      exact absurd hsome (by simp)
    obtain ⟨hj, hh⟩ := buildItems_getElem env d p response i hlen
    rw [hsome] at hh
    have hitem : item = makeCompletionItem env
        { document := d, index := i, position := p
        , detailMessage :=
            buildDetailMessage env.consts.DEFAULT_DETAIL response.user_message
        , old_prefix := response.old_prefix
        , entry := response.results.get ⟨i, hj⟩
        , results := response.results } := Option.some.inj hh
    subst hitem
    exact ⟨hj, by simp [makeCompletionItem], by simp [makeCompletionItem]⟩
  · simp only [buildRequest, beq_iff_eq]
  · rfl

/-- C9 witness: the item at position 0 of the list built from `wResp` ends
its range with candidate 0's `old_suffix` length. -/
theorem range_window_spec_witness :
    (makeCompletionItem wEnv wArgs0).range.2 =
      wPos.translate 0 (((wResp.results.get ⟨0, by decide⟩).old_suffix.length : Int)) := by
  obtain ⟨hj, h1, h2⟩ := (range_window_spec wEnv wDoc wPos wResp).2.1 0
    (makeCompletionItem wEnv wArgs0) (by decide)
  exact h2

/-- C10: whenever the check allows completion and the service returns an
envelope, the function returns a completion list whose `isIncomplete` flag
is true — including the empty list for an envelope with no results; it
returns `none` exactly on suppression, an absent response, or a thrown
fault; and each item's filter text is the raw `new_prefix`, without the
onboarding marker that may decorate the label. -/
theorem provide_list_spec (env : Env) (d : TextDocument) (p : Pos) :
    (∀ response : AutocompleteResult, completionIsAllowed env d p = true →
      env.autocomplete (buildRequest env d p) = .ok (some response) →
      provideCompletionItems env d p =
        some { items := buildItems env d p response, isIncomplete := true }) ∧
    (∀ l, provideCompletionItems env d p = some l → l.isIncomplete = true) ∧
    (provideCompletionItems env d p = none ↔
      (completionIsAllowed env d p = false ∨
        env.autocomplete (buildRequest env d p) = .ok none ∨
        ∃ e, env.autocomplete (buildRequest env d p) = .error e)) ∧
    (∀ args : MakeCompletionArgs,
      (makeCompletionItem env args).filterText = args.entry.new_prefix ∧
      (makeCompletionItem env args).label =
        (if env.isCapabilityEnabled .ON_BOARDING_CAPABILITY then "✨ " else "") ++
          args.entry.new_prefix) ∧
    (∀ response : AutocompleteResult, completionIsAllowed env d p = true →
      env.autocomplete (buildRequest env d p) = .ok (some response) →
      response.results = [] →
      provideCompletionItems env d p =
        some { items := [], isIncomplete := true }) := by
  have hmain : ∀ response : AutocompleteResult, completionIsAllowed env d p = true →
      env.autocomplete (buildRequest env d p) = .ok (some response) →
      provideCompletionItems env d p =
        some { items := buildItems env d p response, isIncomplete := true } := by
    intro response hallow hresp
    unfold provideCompletionItems provideCompletionItemsInner
    rw [hallow, hresp]
    rfl
  refine ⟨hmain, ?_, ?_, ?_, ?_⟩
  · intro l hl
    unfold provideCompletionItems provideCompletionItemsInner at hl
    cases hallow : completionIsAllowed env d p with
    | false => rw [hallow] at hl; simp at hl
    | true =>
      rw [hallow] at hl
      cases hresp : env.autocomplete (buildRequest env d p) with
      | error e => rw [hresp] at hl; simp at hl
      | ok ro =>
        cases ro with
        | none => rw [hresp] at hl; simp at hl
        | some response =>
          rw [hresp] at hl
          simp at hl
          rw [← hl]
  · unfold provideCompletionItems provideCompletionItemsInner
    cases hallow : completionIsAllowed env d p with
    | false => simp
    | true =>
      cases hresp : env.autocomplete (buildRequest env d p) with
      | error e => simp
      | ok ro => cases ro with
        | none => simp
        | some response => simp
  · intro args
    constructor
    · rfl
    · rfl
  · intro response hallow hresp hempty
    have := hmain response hallow hresp
    rw [this]
    unfold buildItems
    rw [hempty]
    rfl

/-- C10 witness: with the `wEnv` service the function returns the
synthesized list marked incomplete. -/
theorem provide_list_spec_witness :
    provideCompletionItems wEnv wDoc wPos =
      some { items := buildItems wEnv wDoc wPos wResp, isIncomplete := true } :=
  (provide_list_spec wEnv wDoc wPos).1 wResp (by decide) rfl

/-- C1: `provideCompletionItems` never propagates an error: when the body of
the `try` block throws, the function returns `none` for that invocation, and
when it does not throw, the function returns its value. -/
theorem provide_absorbs_spec (env : Env) (d : TextDocument) (p : Pos) :
    (∀ e, provideCompletionItemsInner env d p = .error e →
      provideCompletionItems env d p = none) ∧
    (∀ r, provideCompletionItemsInner env d p = .ok r →
      provideCompletionItems env d p = r) := by
  constructor <;> intro x h <;> simp [provideCompletionItems, h]

/-- C1 witness: a service call that throws yields `none`, not an error. -/
theorem provide_absorbs_spec_witness :
    provideCompletionItems
      { wEnv with autocomplete := fun _ => .error "service down" } wDoc wPos = none :=
  (provide_absorbs_spec
    { wEnv with autocomplete := fun _ => .error "service down" } wDoc wPos).1
    "service down" rfl

/-- C8: `getMaxResults` returns 1 when the single-result capability is
enabled, 2 when the two-result capability is enabled and single is not, and
the configured default maximum otherwise. -/
theorem getMaxResults_spec (env : Env) :
    (env.isCapabilityEnabled .SUGGESTIONS_SINGLE = true → getMaxResults env = 1) ∧
    (env.isCapabilityEnabled .SUGGESTIONS_SINGLE = false →
      env.isCapabilityEnabled .SUGGESTIONS_TWO = true → getMaxResults env = 2) ∧
    (env.isCapabilityEnabled .SUGGESTIONS_SINGLE = false →
      env.isCapabilityEnabled .SUGGESTIONS_TWO = false →
      getMaxResults env = env.consts.MAX_NUM_RESULTS) := by
  unfold getMaxResults
  exact ⟨fun h1 => by simp [h1], fun h1 h2 => by simp [h1, h2],
    fun h1 h2 => by simp [h1, h2]⟩

/-- C8 witness: with only the single-result capability on, the maximum is 1. -/
theorem getMaxResults_spec_witness : getMaxResults wEnvSingle = 1 :=
  (getMaxResults_spec wEnvSingle).1 (by decide)

/-- C5: for indices i < j, both at most the configured maximum result count
(itself at most one UTF-16 code unit, as any value of `getMaxResults` is
when the default is), the ordering key `\u0000` followed by the character at
the index is strictly smaller in the editor's lexicographic code-unit
order, and the two keys are distinct. -/
theorem sortText_spec (env : Env) (a b : MakeCompletionArgs)
    (hab : a.index < b.index) (hb : b.index ≤ getMaxResults env)
    (hmax : env.consts.MAX_NUM_RESULTS ≤ 65535) :
    jsStringLt (makeCompletionItem env a).sortText
        (makeCompletionItem env b).sortText = true ∧
    (makeCompletionItem env a).sortText ≠ (makeCompletionItem env b).sortText := by
  have hbound : getMaxResults env ≤ 65535 := by
    unfold getMaxResults
    by_cases h1 : env.isCapabilityEnabled .SUGGESTIONS_SINGLE
    · simp [h1]
    · by_cases h2 : env.isCapabilityEnabled .SUGGESTIONS_TWO
      · simp [h1, h2]
      · simp [h1, h2, hmax]
  have hblt : b.index < 65536 := by omega
  have halt : a.index < 65536 := by omega
  have hma : a.index % 65536 = a.index := Nat.mod_eq_of_lt halt
  have hmb : b.index % 65536 = b.index := Nat.mod_eq_of_lt hblt
  have hsa : (makeCompletionItem env a).sortText = [0, a.index] := by
    simp [makeCompletionItem, hma]
  have hsb : (makeCompletionItem env b).sortText = [0, b.index] := by
    simp [makeCompletionItem, hmb]
  rw [hsa, hsb]
  constructor
  · simp [jsStringLt, hab]
  · intro hc
    simp at hc
    omega

/-- C5 witness: the keys of indices 0 and 1 under `wEnv` are ordered. -/
theorem sortText_spec_witness :
    jsStringLt (makeCompletionItem wEnv wArgs0).sortText
      (makeCompletionItem wEnv wArgs1).sortText = true :=
  (sortText_spec wEnv wArgs0 wArgs1 (by decide) (by decide) (by decide)).1

end TabnineProvide

namespace TabnineProvide

/-- C4: the escape replaces every `$` with `\$` — on `"a$b$c"` it yields
`"a\$b\$c"`, and a string without `$` is returned unchanged — and it is
applied exactly once to the inserted `new_prefix` and once to the trailing
`new_suffix` before they are embedded into the snippet body. -/
theorem escapeTabStopSign_spec :
    escapeTabStopSign "a$b$c" = "a\\$b\\$c" ∧
    (∀ s : String, '$' ∉ s.data → escapeTabStopSign s = s) ∧
    (∀ (env : Env) (args : MakeCompletionArgs),
      (makeCompletionItem env args).insertText =
        (if args.entry.new_suffix ≠ "" then
          ((SnippetString.ofValue (escapeTabStopSign args.entry.new_prefix)).appendTabstop
              0).appendText (escapeTabStopSign args.entry.new_suffix)
        else SnippetString.ofValue (escapeTabStopSign args.entry.new_prefix))) := by
  refine ⟨by decide, ?_, ?_⟩
  · intro s h
    cases s with
    | mk l =>
      show String.mk (l.flatMap _) = String.mk l
      rw [flatMap_escape_id l h]
  · intro env args
    rfl

/-- C4 witness: a dollar-free string is unchanged. -/
theorem escapeTabStopSign_spec_witness : escapeTabStopSign "hello" = "hello" :=
  escapeTabStopSign_spec.2.1 "hello" (by decide)

/-- C6 counterexample: a tagged documentation value whose tag is the empty
string is passed through whole — the claim's plain-text output (its value
field) is a different value. -/
theorem formatDocumentation_counterexample :
    formatDocumentation (.tagged "" "v") = .passthrough (.tagged "" "v") ∧
    FormattedDocumentation.passthrough (DocValue.tagged "" "v") ≠
      FormattedDocumentation.passthrough (DocValue.str "v") := by
  exact ⟨rfl, by decide⟩

/-- C6 (amended): a tag equal to `"markdown"` yields rich text from the
value; any other non-empty tag yields plain text equal to the value; an
empty tag fails the truthiness check and the whole tagged value is passed
through unchanged, as is an untagged bare string; no case raises. -/
theorem formatDocumentation_spec (k v s : String) :
    (formatDocumentation (.tagged "markdown" v) = .markdownString v) ∧
    (k ≠ "" → k ≠ "markdown" →
      formatDocumentation (.tagged k v) = .passthrough (.str v)) ∧
    (formatDocumentation (.tagged "" v) = .passthrough (.tagged "" v)) ∧
    (formatDocumentation (.str s) = .passthrough (.str s)) := by
  refine ⟨?_, ?_, ?_, ?_⟩
  · simp [formatDocumentation, isMarkdownStringSpec]
  · intro h1 h2
    simp [formatDocumentation, isMarkdownStringSpec, h1, h2]
  · simp [formatDocumentation, isMarkdownStringSpec]
  · simp [formatDocumentation, isMarkdownStringSpec]

/-- C6 witness: a `"plaintext"` tag yields plain text equal to the value. -/
theorem formatDocumentation_spec_witness :
    formatDocumentation (.tagged "plaintext" "v") = .passthrough (.str "v") :=
  (formatDocumentation_spec "plaintext" "v" "w").2.1 (by decide) (by decide)

/-- C7 counterexample: for advisory strings `["", "b"]` the aggregated
message is `"b"`, not the newline join `"\nb"` and not the default. -/
theorem detailMessage_counterexample :
    buildDetailMessage "TabNine" (some ["", "b"]) = "b" ∧
    String.intercalate "\n" ["", "b"] = "\n" ++ "b" ∧
    ("b" : String) ≠ "\n" ++ "b" ∧ ("b" : String) ≠ "TabNine" := by
  refine ⟨rfl, rfl, by decide, by decide⟩

/-- C7 (amended): the aggregated message is the newline join of the
advisory strings after the leading empty ones are dropped, with the fixed
default used exactly when no strings remain; each item's detail is the
candidate's own detail exactly when that detail is truthy and the
aggregated message is the default or contains `"Your project contains"`,
and is the aggregated message otherwise. -/
theorem detailMessage_spec (env : Env) (args : MakeCompletionArgs)
    (dd : String) (um : Option (List String)) :
    (buildDetailMessage dd um =
      (match (um.getD []).dropWhile (fun m => m == "") with
       | [] => dd
       | m :: rest => String.intercalate "\n" (m :: rest))) ∧
    ((truthyStr args.entry.detail &&
        (args.detailMessage == env.consts.DEFAULT_DETAIL ||
          jsIncludes args.detailMessage "Your project contains")) = true →
      (makeCompletionItem env args).detail = (args.entry.detail).getD "") ∧
    ((truthyStr args.entry.detail &&
        (args.detailMessage == env.consts.DEFAULT_DETAIL ||
          jsIncludes args.detailMessage "Your project contains")) = false →
      (makeCompletionItem env args).detail = args.detailMessage) :=
  ⟨buildDetailMessage_eq dd um,
    fun h => by simp [makeCompletionItem, h],
    fun h => by simp [makeCompletionItem, h]⟩

/-- C7 witness: with the aggregated message equal to the default, the item
keeps the candidate's own detail. -/
theorem detailMessage_spec_witness :
    (makeCompletionItem wEnv wArgsDet).detail = "det" :=
  (detailMessage_spec wEnv wArgsDet "x" none).2.1 (by decide)

end TabnineProvide
